import Mathlib

/-!
Verification of the CBZ-to-EPUB converter (`convert-cbz-to-epub.py`).

The script is embedded shallowly:
* strings are modelled as `String` / `List Char`, compared by Unicode code
  point exactly as Python compares `str` values;
* images are records of pixel width, pixel height and colour mode (the only
  attributes the script inspects); Pillow calls are modelled by their
  documented effect on those attributes, with exact rational arithmetic in
  place of Python floats;
* the filesystem walk (`os.walk`) is a list of directory entries, each a
  directory path together with its file list in on-disk order;
* fallible steps (`ZipFile.extractall`, `Image.save`, `epub.write_epub`)
  return `Except String`, and `tempfile.TemporaryDirectory` is modelled by an
  explicit acquire/release wrapper over a filesystem state.
-/

/-! ## Characters and strings (Python `str` semantics) -/

/-- ASCII lowering, the effect of Python `str.lower` on ASCII text. -/
def lowerChar (c : Char) : Char :=
  if 65 ≤ c.toNat ∧ c.toNat ≤ 90 then Char.ofNat (c.toNat + 32) else c

/-- `s.lower()` on a whole string. -/
def lowerStr (s : String) : String := ⟨s.data.map lowerChar⟩

/-- Python string ordering: lexicographic comparison of code points,
shorter-is-smaller on ties.  `strLe a b` is `a <= b` for Python `str`. -/
def strLe : List Char → List Char → Bool
  | [], _ => true
  | _ :: _, [] => false
  | a :: as, b :: bs =>
    if a.toNat = b.toNat then strLe as bs else decide (a.toNat < b.toNat)

/-- The extension allow-list of the script (`VALID_IMAGE_EXTENSIONS`). -/
def VALID_IMAGE_EXTENSIONS : List String := [".png", ".jpg", ".jpeg"]

/-- `file.lower().endswith(VALID_IMAGE_EXTENSIONS)`. -/
def isValidImage (file : String) : Bool :=
  VALID_IMAGE_EXTENSIONS.any (fun ext => ext.data.isSuffixOf (lowerStr file).data)

/-! ## Images and the Image Normalizer (`compress_images`) -/

/-- Pillow colour modes the script can encounter. -/
inductive Mode where
  | one | L | LA | P | RGB | RGBA | CMYK
deriving DecidableEq, Repr

/-- A decoded page image: the attributes the script reads. -/
structure Img where
  width : Nat
  height : Nat
  mode : Mode
deriving DecidableEq, Repr

/-- Modes Pillow's JPEG encoder accepts; `Image.save(..., "JPEG")` raises
`OSError` for the others (in particular `RGBA`, `LA` and `P`). -/
def jpegEncodable : Mode → Bool
  | .one | .L | .RGB | .CMYK => true
  | _ => false

/-- Lines 26-27: `if img.mode == 'P': img = img.convert('RGB')`. -/
def convertPalette (img : Img) : Img :=
  if img.mode = Mode.P then { img with mode := Mode.RGB } else img

/-- Lines 28-31: the conditional downscale.  `int(aspect_ratio * max_height)`
with `aspect_ratio = img.width / img.height` is, in exact arithmetic,
`img.width * max_height / img.height` rounded toward zero (`Nat` division). -/
def resizeImage (max_height : Nat) (img : Img) : Img :=
  if img.height > max_height then
    { img with width := img.width * max_height / img.height, height := max_height }
  else img

/-- Line 32: `img.save(img_path, "JPEG", quality=quality)`: succeeds (leaving
pixel dimensions unchanged) iff the mode is JPEG-encodable. -/
def saveAsJpeg (quality : Nat) (img : Img) : Except String Img :=
  if jpegEncodable img.mode then Except.ok img
  else Except.error "cannot write mode as JPEG"

/-- Lines 25-32: processing of one opened image. -/
def compressImage (quality max_height : Nat) (img : Img) : Except String Img :=
  saveAsJpeg quality (resizeImage max_height (convertPalette img))

/-- One directory of the `os.walk` sequence: its path and its files
(name paired with decoded image content) in on-disk order. -/
structure DirEntry where
  path : String
  files : List (String × Img)
deriving DecidableEq, Repr

/-- Lines 22-32: a single file of the walk; non-matching extensions are
skipped untouched. -/
def compressFile (quality max_height : Nat) (f : String × Img) :
    Except String (String × Img) :=
  if isValidImage f.1 then
    match compressImage quality max_height f.2 with
    | Except.error e => Except.error e
    | Except.ok img => Except.ok (f.1, img)
  else Except.ok f

/-- Lines 21-32 for one walk entry. -/
def compressDir (quality max_height : Nat) (d : DirEntry) : Except String DirEntry :=
  match d.files.mapM (compressFile quality max_height) with
  | Except.error e => Except.error e
  | Except.ok fs => Except.ok { d with files := fs }

/-- `compress_images(temp_dir, quality, max_height)` over the whole walk;
the first raised error aborts the loop. -/
def compress_images (quality max_height : Nat) (walk : List DirEntry) :
    Except String (List DirEntry) :=
  walk.mapM (compressDir quality max_height)

/-! ## Sorting (`sorted(files)`, Python Timsort: stable, `<=` on names) -/

/-- Stable insertion of a file into a sorted run, ordered by filename. -/
def insortFile (x : String × Img) : List (String × Img) → List (String × Img)
  | [] => [x]
  | y :: ys => if strLe x.1.data y.1.data then x :: y :: ys else y :: insortFile x ys

/-- Stable sort of a directory's file list by filename, the effect of
`sorted(files)` in `create_epub`. -/
def sortFiles : List (String × Img) → List (String × Img)
  | [] => []
  | x :: xs => insortFile x (sortFiles xs)

/-! ## Document Assembler (`create_epub`) -/

/-- The parts of the assembled `EpubBook` the claims are about: the image
items' `uid`s in insertion order, the spine (chapter per image, insertion
order) and the table of contents. -/
structure Book where
  itemUids : List String
  spine : List String
  toc : List String
deriving DecidableEq, Repr

/-- Lines 48-60: the image basenames in processing order — walk order over
directories, `sorted(files)` within each directory, filtered by extension.
Each qualifying image contributes one `EpubItem` (uid = basename) and one
chapter appended to the spine. -/
def epubPages (walk : List DirEntry) : List String :=
  (walk.map (fun d =>
    ((sortFiles d.files).filter (fun f => isValidImage f.1)).map (fun f => f.1))).flatten

/-- Lines 42-62 of `create_epub`: build the book.  Line 62 sets
`book.toc = tuple(book.spine[1:])`. -/
def create_epub (walk : List DirEntry) : Book :=
  { itemUids := epubPages walk
    spine := epubPages walk
    toc := (epubPages walk).drop 1 }

/-- The qualifying image names of the scratch tree in raw walk order
(no sorting): the comparison point for ordering and uniqueness claims. -/
def allValidNames (walk : List DirEntry) : List String :=
  (walk.map (fun d =>
    (d.files.filter (fun f => isValidImage f.1)).map (fun f => f.1))).flatten

/-- Insertion into a sorted list of names (Python `<=`). -/
def insortName (x : String) : List String → List String
  | [] => [x]
  | y :: ys => if strLe x.data y.data then x :: y :: ys else y :: insortName x ys

/-- Global ascending filename order: sorting a name list the way Python's
`sorted` would. -/
def sortNames : List String → List String
  | [] => []
  | x :: xs => insortName x (sortNames xs)

/-! ## POSIX path functions used by the script -/

/-- `os.path.basename`: everything after the last `'/'`. -/
def basenameL (p : List Char) : List Char :=
  (p.reverse.takeWhile (fun c => c != '/')).reverse

/-- The root part of `os.path.splitext` on a basename: split at the last
dot, except that leading dots of the name never start an extension. -/
def splitExtStemL (b : List Char) : List Char :=
  if ('.') ∈ b.drop ((b.takeWhile (fun c => c == '.')).length) then
    b.take (b.length - ((b.reverse.takeWhile (fun c => c != '.')).length + 1))
  else b

/-- Line 82: `os.path.splitext(os.path.basename(cbz_file))[0] + ".epub"`. -/
def epub_filename (cbz_file : String) : String :=
  ⟨splitExtStemL (basenameL cbz_file.data) ++ ".epub".data⟩

/-- `os.path.join` for two components (POSIX rules): an absolute second
component wins; otherwise concatenate, adding `'/'` unless the first
component is empty or already ends in `'/'`. -/
def pathJoin (a b : String) : String :=
  if b.data.head? = some '/' then b
  else if a.data = [] then b
  else if a.data.getLast? = some '/' then ⟨a.data ++ b.data⟩
  else ⟨a.data ++ '/' :: b.data⟩

/-- `os.path.relpath(root, input_folder)` for the shapes `os.walk` produces:
the walk root itself maps to `"."`, a strict subdirectory to its suffix
after `input_folder + "/"`. -/
def pyRelPath (root input_folder : String) : String :=
  if root = input_folder then "."
  else if (input_folder.data ++ ['/']).isPrefixOf root.data then
    ⟨root.data.drop (input_folder.data.length + 1)⟩
  else root

/-- Lines 82-85: the destination path of one archive's EPUB. -/
def epubOutputPath (cbz_file output_folder relative_path : String) : String :=
  pathJoin (pathJoin output_folder relative_path) (epub_filename cbz_file)

/-! ## Archive Converter (`process_cbz`) -/

/-- One archive as the converter sees it: its path, the outcome of
`ZipFile(...).extractall` (the extracted walk, or the raised error for a
malformed archive), and the outcome of `epub.write_epub`. -/
structure CbzFile where
  path : String
  extracted : Except String (List DirEntry)
  writeRes : Except String Unit
deriving Repr

/-- Lines 78-87 minus the scratch-directory bookkeeping: extract, compress,
compute the destination path, write.  Any raised error propagates; on
success the created EPUB path (the success notice of line 87) is returned. -/
def process_cbz (quality max_height : Nat) (output_folder relative_path : String)
    (cbz : CbzFile) : Except String String :=
  match cbz.extracted with
  | Except.error e => Except.error e
  | Except.ok walk =>
    match compress_images quality max_height walk with
    | Except.error e => Except.error e
    | Except.ok _ =>
      match cbz.writeRes with
      | Except.error e => Except.error e
      | Except.ok _ => Except.ok (epubOutputPath cbz.path output_folder relative_path)

/-- The filesystem state the cleanup claim is about: how many scratch
extraction directories are currently alive. -/
structure FS where
  scratch : Nat
deriving DecidableEq, Repr

/-- `with tempfile.TemporaryDirectory() as temp_dir:` — acquire the scratch
directory, run the body, and remove the directory again no matter whether
the body returned or raised (`__exit__` runs on both paths). -/
def withTempDir {α : Type} (body : FS → Except String α × FS) (fs : FS) :
    Except String α × FS :=
  let acquired : FS := { scratch := fs.scratch + 1 }
  let r := body acquired
  (r.1, { scratch := r.2.scratch - 1 })

/-- Lines 78-87 with the `with`-statement made explicit: the whole body of
`process_cbz` runs inside the scratch directory's scope. -/
def process_cbz_fs (quality max_height : Nat) (output_folder relative_path : String)
    (cbz : CbzFile) (fs : FS) : Except String String × FS :=
  withTempDir
    (fun fsIn => (process_cbz quality max_height output_folder relative_path cbz, fsIn))
    fs

/-! ## Batch Driver (`process_folder`) -/

/-- A file the driver's walk sees in some directory: its name plus, for the
case it is an archive, the behaviour of extracting and writing it. -/
structure FsFile where
  name : String
  extracted : Except String (List DirEntry)
  writeRes : Except String Unit
deriving Repr

/-- One directory of the driver's `os.walk` over the input folder. -/
structure InputDir where
  root : String
  files : List FsFile
deriving Repr

/-- Line 101: `f.lower().endswith('.cbz')`. -/
def isCbzName (name : String) : Bool := ".cbz".data.isSuffixOf (lowerStr name).data

/-- Lines 105-106: the per-directory loop over the found archives.  Returns
the EPUB paths created so far and, when an archive raised, the error that
terminated the process (no per-item error boundary exists in the source). -/
def runCbzList (quality max_height : Nat) (output_folder relative_path root : String) :
    List FsFile → List String × Option String
  | [] => ([], none)
  | f :: rest =>
    match process_cbz quality max_height output_folder relative_path
        { path := pathJoin root f.name, extracted := f.extracted, writeRes := f.writeRes } with
    | Except.error e => ([], some e)
    | Except.ok p =>
      let r := runCbzList quality max_height output_folder relative_path root rest
      (p :: r.1, r.2)

/-- Lines 99-106: the walk over input directories; directories without
archives are skipped, and an uncaught error stops the whole batch. -/
def runDirs (input_folder output_folder : String) (quality max_height : Nat) :
    List InputDir → List String × Option String
  | [] => ([], none)
  | d :: rest =>
    let relative_path := pyRelPath d.root input_folder
    let r := runCbzList quality max_height output_folder relative_path d.root
      (d.files.filter (fun f => isCbzName f.name))
    match r.2 with
    | some e => (r.1, some e)
    | none =>
      let r2 := runDirs input_folder output_folder quality max_height rest
      (r.1 ++ r2.1, r2.2)

/-- `process_folder(input_folder, output_folder, quality, max_height)` over
a modelled walk of the input tree. -/
def process_folder (input_folder output_folder : String) (quality max_height : Nat)
    (walk : List InputDir) : List String × Option String :=
  runDirs input_folder output_folder quality max_height walk

/-! ## Helper lemmas on the string order -/

/-- Python string `<=` is total. -/
theorem strLe_total : ∀ a b : List Char, strLe a b = true ∨ strLe b a = true
  | [], _ => Or.inl rfl
  | _ :: _, [] => Or.inr rfl
  | a :: as, b :: bs => by
    simp only [strLe]
    by_cases h : a.toNat = b.toNat
    · rw [if_pos h, if_pos h.symm]
      exact strLe_total as bs
    · rw [if_neg h, if_neg (fun e => h e.symm)]
      simp only [decide_eq_true_eq]
      omega

/-- Python string `<=` is transitive. -/
theorem strLe_trans : ∀ a b c : List Char,
    strLe a b = true → strLe b c = true → strLe a c = true
  | [], _, _, _, _ => rfl
  | _ :: _, [], _, h, _ => by simp [strLe] at h
  | _ :: _, _ :: _, [], _, h => by simp [strLe] at h
  | a :: as, b :: bs, c :: cs, h1, h2 => by
    simp only [strLe] at h1 h2 ⊢
    by_cases hab : a.toNat = b.toNat
    · rw [if_pos hab] at h1
      by_cases hbc : b.toNat = c.toNat
      · rw [if_pos hbc] at h2
        rw [if_pos (hab.trans hbc)]
        exact strLe_trans as bs cs h1 h2
      · rw [if_neg hbc] at h2
        simp only [decide_eq_true_eq] at h2
        have hac : ¬a.toNat = c.toNat := by omega
        rw [if_neg hac, decide_eq_true_eq]
        omega
    · rw [if_neg hab] at h1
      simp only [decide_eq_true_eq] at h1
      by_cases hbc : b.toNat = c.toNat
      · have hac : ¬a.toNat = c.toNat := by omega
        rw [if_neg hac, decide_eq_true_eq]
        omega
      · rw [if_neg hbc] at h2
        simp only [decide_eq_true_eq] at h2
        have hac : ¬a.toNat = c.toNat := by omega
        rw [if_neg hac, decide_eq_true_eq]
        omega

/-- The filename order on directory entries used by `sorted(files)`. -/
def fileLe (a b : String × Img) : Prop := strLe a.1.data b.1.data = true

/-- Ascending order on plain names. -/
def nameLe (a b : String) : Prop := strLe a.data b.data = true

instance : IsTrans (String × Img) fileLe := ⟨fun _ _ _ => strLe_trans _ _ _⟩

/-- Inserting into a run sorted by filename keeps it sorted. -/
theorem chain'_insortFile (x : String × Img) :
    ∀ l : List (String × Img), List.Chain' fileLe l → List.Chain' fileLe (insortFile x l)
  | [], _ => by simp [insortFile]
  | y :: ys, h => by
    by_cases c : strLe x.1.data y.1.data = true
    · rw [insortFile, if_pos c]
      exact List.chain'_cons.mpr ⟨c, h⟩
    · rw [insortFile, if_neg c]
      have hyx : fileLe y x := by
        rcases strLe_total x.1.data y.1.data with h' | h'
        · exact absurd h' c
        · exact h'
      have ih := chain'_insortFile x ys h.tail
      rw [List.chain'_cons']
      refine ⟨?_, ih⟩
      intro z hz
      cases ys with
      | nil =>
        simp [insortFile] at hz
        subst hz
        exact hyx
      | cons w ws =>
        by_cases c2 : strLe x.1.data w.1.data = true
        · rw [insortFile, if_pos c2] at hz
          simp at hz
          subst hz
          exact hyx
        · rw [insortFile, if_neg c2] at hz
          simp at hz
          subst hz
          exact (List.chain'_cons.mp h).1

/-- `sortFiles` produces a filename-sorted run. -/
theorem chain'_sortFiles : ∀ l, List.Chain' fileLe (sortFiles l)
  | [] => by simp [sortFiles]
  | x :: xs => chain'_insortFile x _ (chain'_sortFiles xs)

/-- Sortedness of `sortFiles`, in `Pairwise` form. -/
theorem pairwise_sortFiles (l : List (String × Img)) : (sortFiles l).Pairwise fileLe :=
  List.chain'_iff_pairwise.mp (chain'_sortFiles l)

/-- Insertion is a permutation. -/
theorem insortFile_perm (x : String × Img) : ∀ l, (insortFile x l).Perm (x :: l)
  | [] => List.Perm.refl _
  | y :: ys => by
    by_cases c : strLe x.1.data y.1.data = true
    · rw [insortFile, if_pos c]
    · rw [insortFile, if_neg c]
      exact ((insortFile_perm x ys).cons y).trans (List.Perm.swap x y ys)

/-- `sortFiles` is a permutation of its input. -/
theorem sortFiles_perm : ∀ l, (sortFiles l).Perm l
  | [] => List.Perm.refl _
  | x :: xs => (insortFile_perm x (sortFiles xs)).trans ((sortFiles_perm xs).cons x)

theorem epubPages_cons (d : DirEntry) (ds : List DirEntry) :
    epubPages (d :: ds)
      = ((sortFiles d.files).filter (fun f => isValidImage f.1)).map (fun f => f.1)
        ++ epubPages ds := by
  simp [epubPages]

theorem allValidNames_cons (d : DirEntry) (ds : List DirEntry) :
    allValidNames (d :: ds)
      = (d.files.filter (fun f => isValidImage f.1)).map (fun f => f.1)
        ++ allValidNames ds := by
  simp [allValidNames]

theorem epubPages_singleton (d : DirEntry) :
    epubPages [d]
      = ((sortFiles d.files).filter (fun f => isValidImage f.1)).map (fun f => f.1) := by
  simp [epubPages]

/-- The page sequence is a permutation of the qualifying names of the tree. -/
theorem epubPages_perm : ∀ walk, (epubPages walk).Perm (allValidNames walk)
  | [] => by simp [epubPages, allValidNames]
  | d :: ds => by
    rw [epubPages_cons, allValidNames_cons]
    exact (((sortFiles_perm d.files).filter _).map _).append (epubPages_perm ds)

/-- Within a single directory the page sequence is ascending. -/
theorem pairwise_epubPages_singleton (d : DirEntry) :
    (epubPages [d]).Pairwise nameLe := by
  rw [epubPages_singleton]
  exact List.pairwise_map.mpr ((pairwise_sortFiles d.files).filter _)

/-! ## Helper lemmas on the path functions -/

theorem takeWhile_append_stop {p : Char → Bool} :
    ∀ l1 l2 : List Char, (∃ x ∈ l1, p x = false) →
      (l1 ++ l2).takeWhile p = l1.takeWhile p
  | [], _, h => by simp at h
  | a :: l1, l2, h => by
    by_cases ha : p a
    · have h' : ∃ x ∈ l1, p x = false := by
        rcases h with ⟨x, hx, hpx⟩
        rcases List.mem_cons.mp hx with rfl | hx'
        · rw [ha] at hpx
          exact absurd hpx (by simp)
        · exact ⟨x, hx', hpx⟩
      simp only [List.cons_append, List.takeWhile_cons_of_pos ha]
      rw [takeWhile_append_stop l1 l2 h']
    · simp only [List.cons_append]
      rw [List.takeWhile_cons_of_neg ha, List.takeWhile_cons_of_neg ha]

theorem takeWhile_append_middle {p : Char → Bool} {a : Char} (hpa : p a = false) :
    ∀ l1 l2 : List Char, (∀ x ∈ l1, p x = true) →
      (l1 ++ a :: l2).takeWhile p = l1
  | [], l2, _ => by
    simp only [List.nil_append]
    rw [List.takeWhile_cons_of_neg (by simp [hpa])]
  | b :: l1, l2, h => by
    simp only [List.cons_append]
    rw [List.takeWhile_cons_of_pos (h b (by simp)),
      takeWhile_append_middle hpa l1 l2 (fun x hx => h x (by simp [hx]))]

theorem length_takeWhile_le' {p : Char → Bool} :
    ∀ l : List Char, (l.takeWhile p).length ≤ l.length
  | [] => Nat.le_refl _
  | a :: l => by
    rw [List.takeWhile_cons]
    by_cases ha : p a
    · simp only [ha, if_pos]
      simpa using length_takeWhile_le' l
    · simp [ha]

theorem drop_append_le {α : Type} :
    ∀ (n : Nat) (l1 l2 : List α), n ≤ l1.length → (l1 ++ l2).drop n = l1.drop n ++ l2
  | 0, _, _, _ => rfl
  | n + 1, [], _, h => by simp at h
  | n + 1, a :: l1, l2, h => by
    simp only [List.cons_append, List.drop_succ_cons]
    exact drop_append_le n l1 l2 (by simpa using h)

/-- `os.path.basename` strips everything up to the last separator. -/
theorem basenameL_append (d f : List Char) (hf : ('/') ∉ f) :
    basenameL (d ++ '/' :: f) = f := by
  unfold basenameL
  rw [List.reverse_append, List.reverse_cons, List.append_assoc, List.singleton_append]
  rw [takeWhile_append_middle (by simp) f.reverse d.reverse ?_]
  · exact List.reverse_reverse f
  · intro x hx
    have hxf : x ∈ f := List.mem_reverse.mp hx
    simp only [bne_iff_ne, ne_eq]
    intro he
    exact hf (he ▸ hxf)

/-- `os.path.splitext` on `<stem>.cbz` returns stem `<stem>` whenever the
stem has a character that is not a dot (so the `.cbz` dot, the last dot of
the name, starts the extension). -/
theorem splitExtStemL_cbz (stem : List Char) (h : ∃ c ∈ stem, c ≠ '.') :
    splitExtStemL (stem ++ ['.', 'c', 'b', 'z']) = stem := by
  unfold splitExtStemL
  have htw : (stem ++ ['.', 'c', 'b', 'z']).takeWhile (fun c => c == '.')
      = stem.takeWhile (fun c => c == '.') := by
    refine takeWhile_append_stop stem _ ?_
    rcases h with ⟨c, hc, hne⟩
    exact ⟨c, hc, by simpa using hne⟩
  have hk : (stem.takeWhile (fun c => c == '.')).length ≤ stem.length :=
    length_takeWhile_le' stem
  have hmem : ('.')
      ∈ (stem ++ ['.', 'c', 'b', 'z']).drop
          (((stem ++ ['.', 'c', 'b', 'z']).takeWhile (fun c => c == '.')).length) := by
    rw [htw, drop_append_le _ _ _ hk]
    exact List.mem_append.mpr (Or.inr (by simp))
  rw [if_pos hmem]
  have hrev : (stem ++ ['.', 'c', 'b', 'z']).reverse
      = ['z', 'b', 'c'] ++ '.' :: stem.reverse := by
    rw [List.reverse_append]
    rfl
  have hsuf : ((stem ++ ['.', 'c', 'b', 'z']).reverse.takeWhile (fun c => c != '.')).length
      = 3 := by
    rw [hrev, takeWhile_append_middle (by simp) ['z', 'b', 'c'] stem.reverse (by decide)]
    rfl
  rw [hsuf]
  have hlen : (stem ++ ['.', 'c', 'b', 'z']).length - (3 + 1) = stem.length := by
    simp [List.length_append]
  rw [hlen, List.take_left]

/-- `os.path.join` in the common relative case appends with a separator. -/
theorem pathJoin_eq (a b : String) (ha : a.data ≠ []) (ha2 : a.data.getLast? ≠ some '/')
    (hb : b.data.head? ≠ some '/') : pathJoin a b = ⟨a.data ++ '/' :: b.data⟩ := by
  unfold pathJoin
  rw [if_neg hb, if_neg ha, if_neg ha2]

/-- `os.path.relpath(input + "/" + sub, input) = sub`. -/
theorem pyRelPath_append (input sub : String) :
    pyRelPath (input ++ "/" ++ sub) input = sub := by
  unfold pyRelPath
  have hne : ¬(input ++ "/" ++ sub = input) := by
    intro h
    have h2 : (input ++ "/" ++ sub).data.length = input.data.length := by rw [h]
    simp [String.data_append] at h2
  rw [if_neg hne]
  have hdata : (input ++ "/" ++ sub).data = (input.data ++ ['/']) ++ sub.data := by
    simp [String.data_append]
  have hpre : (input.data ++ ['/']).isPrefixOf (input ++ "/" ++ sub).data = true := by
    rw [List.isPrefixOf_iff_prefix, hdata]
    exact ⟨sub.data, rfl⟩
  rw [if_pos hpre, hdata, List.drop_left' (by simp)]

/-- The computed destination of an archive `input/sub/stem.cbz` with output
root `out` is the mirrored path `out/sub/stem.epub`, under the sanity
conditions that the roots do not end in a separator, the subdirectory is a
plain relative name, and the stem has no separator and at least one non-dot
character. -/
theorem epubOutputPath_mirrors (input_folder output_folder sub stem : String)
    (hout1 : output_folder.data ≠ [])
    (hout2 : output_folder.data.getLast? ≠ some '/')
    (hsub1 : sub.data ≠ [])
    (hsub2 : sub.data.head? ≠ some '/')
    (hsub3 : sub.data.getLast? ≠ some '/')
    (hstem1 : ('/') ∉ stem.data)
    (hstem2 : ∃ c ∈ stem.data, c ≠ '.') :
    epubOutputPath (input_folder ++ "/" ++ sub ++ "/" ++ stem ++ ".cbz")
        output_folder (pyRelPath (input_folder ++ "/" ++ sub) input_folder)
      = output_folder ++ "/" ++ sub ++ "/" ++ stem ++ ".epub" := by
  rw [pyRelPath_append]
  have hslash : "/".data = ['/'] := rfl
  have hcbz : ".cbz".data = ['.', 'c', 'b', 'z'] := rfl
  have hepub : ".epub".data = ['.', 'e', 'p', 'u', 'b'] := rfl
  have hdata : (input_folder ++ "/" ++ sub ++ "/" ++ stem ++ ".cbz").data
      = (input_folder.data ++ '/' :: sub.data)
        ++ '/' :: (stem.data ++ ['.', 'c', 'b', 'z']) := by
    simp [String.data_append, hslash, hcbz, List.append_assoc]
  have hbase : basenameL (input_folder ++ "/" ++ sub ++ "/" ++ stem ++ ".cbz").data
      = stem.data ++ ['.', 'c', 'b', 'z'] := by
    rw [hdata]
    refine basenameL_append _ _ ?_
    intro hmem
    rcases List.mem_append.mp hmem with hmem | hmem
    · exact hstem1 hmem
    · simp at hmem
  have hfn : epub_filename (input_folder ++ "/" ++ sub ++ "/" ++ stem ++ ".cbz")
      = ⟨stem.data ++ ['.', 'e', 'p', 'u', 'b']⟩ := by
    unfold epub_filename
    rw [hbase, splitExtStemL_cbz _ hstem2]
  have hj1 : pathJoin output_folder sub = ⟨output_folder.data ++ '/' :: sub.data⟩ :=
    pathJoin_eq _ _ hout1 hout2 hsub2
  have hstemne : stem.data ≠ [] := by
    rcases hstem2 with ⟨c0, hc0, _⟩
    intro he
    rw [he] at hc0
    simp at hc0
  have hj2 : pathJoin ⟨output_folder.data ++ '/' :: sub.data⟩
        ⟨stem.data ++ ['.', 'e', 'p', 'u', 'b']⟩
      = ⟨(output_folder.data ++ '/' :: sub.data)
          ++ '/' :: (stem.data ++ ['.', 'e', 'p', 'u', 'b'])⟩ := by
    refine pathJoin_eq _ _ (by simp) ?_ ?_
    · show (output_folder.data ++ '/' :: sub.data).getLast? ≠ some '/'
      rw [List.getLast?_append]
      cases hsd : sub.data with
      | nil => exact absurd hsd hsub1
      | cons c cs =>
        rw [List.getLast?_cons_cons]
        have hne : (c :: cs).getLast? ≠ some '/' := hsd ▸ hsub3
        cases hgl : (c :: cs).getLast? with
        | none => simp at hgl
        | some x =>
          rw [hgl] at hne
          simpa using hne
    · show (stem.data ++ ['.', 'e', 'p', 'u', 'b'] : List Char).head? ≠ some '/'
      cases hsd : stem.data with
      | nil => exact absurd hsd hstemne
      | cons c cs =>
        simp only [List.cons_append, List.head?_cons]
        intro he
        apply hstem1
        have : c = '/' := by injection he
        rw [hsd, this]
        exact List.mem_cons_self _ _
  unfold epubOutputPath
  rw [hfn, hj1, hj2]
  apply String.ext
  simp [String.data_append, hslash, hepub, List.append_assoc]


/-! ## The claims -/

/-- Claim C1, counterexample: for a nested scratch tree the spine is walk
order with per-directory sorting, not ascending filename order across the
whole tree.  With `z.jpg` in the top directory and `a.jpg` in a
subdirectory the spine is `z.jpg, a.jpg`, while global ascending filename
order is `a.jpg, z.jpg`. -/
theorem create_epub_spine_not_globally_sorted :
    (create_epub [⟨"t", [("z.jpg", ⟨1, 1, Mode.RGB⟩)]⟩,
        ⟨"t/sub", [("a.jpg", ⟨1, 1, Mode.RGB⟩)]⟩]).spine = ["z.jpg", "a.jpg"]
    ∧ sortNames (allValidNames [⟨"t", [("z.jpg", ⟨1, 1, Mode.RGB⟩)]⟩,
        ⟨"t/sub", [("a.jpg", ⟨1, 1, Mode.RGB⟩)]⟩]) = ["a.jpg", "z.jpg"]
    ∧ (create_epub [⟨"t", [("z.jpg", ⟨1, 1, Mode.RGB⟩)]⟩,
        ⟨"t/sub", [("a.jpg", ⟨1, 1, Mode.RGB⟩)]⟩]).spine
      ≠ sortNames (allValidNames [⟨"t", [("z.jpg", ⟨1, 1, Mode.RGB⟩)]⟩,
        ⟨"t/sub", [("a.jpg", ⟨1, 1, Mode.RGB⟩)]⟩]) := by
  refine ⟨by decide, by decide, by decide⟩

/-- Claim C1 (amended): the spine is in ascending filename order within
each directory of the scratch tree; for an archive whose qualifying images
all sit in one directory the reading order is exactly the ascending
filename order of its qualifying images, and in particular the archive
`b.jpg, a.jpg, c.jpg` yields reading order `a.jpg, b.jpg, c.jpg`.  Across
nested subdirectories the order is walk order with per-directory sorting
(see the counterexample), not a single global sort. -/
theorem create_epub_spine_per_directory_sorted :
    (∀ d files, ((create_epub [⟨d, files⟩]).spine).Pairwise nameLe)
    ∧ (∀ d files, ((create_epub [⟨d, files⟩]).spine).Perm
        ((files.filter (fun f => isValidImage f.1)).map (fun f => f.1)))
    ∧ (create_epub [⟨"t", [("b.jpg", ⟨1, 1, Mode.RGB⟩), ("a.jpg", ⟨1, 1, Mode.RGB⟩),
        ("c.jpg", ⟨1, 1, Mode.RGB⟩)]⟩]).spine = ["a.jpg", "b.jpg", "c.jpg"] := by
  refine ⟨?_, ?_, by decide⟩
  · intro d files
    exact pairwise_epubPages_singleton ⟨d, files⟩
  · intro d files
    show (epubPages [⟨d, files⟩]).Perm _
    rw [epubPages_singleton]
    exact ((sortFiles_perm files).filter _).map _

/-- Claim C2, counterexample: the script truncates the scaled width
(`int(...)`), it does not round it.  For a 3x2048 image with
`max_height = 1024` the exact scaled width is 1.5: the code produces 1
while rounding produces 2. -/
theorem resizeImage_truncates_not_rounds :
    (resizeImage 1024 ⟨3, 2048, Mode.RGB⟩).width = 1
    ∧ round ((3 * 1024 : ℚ) / 2048) = (2 : ℤ)
    ∧ ((resizeImage 1024 ⟨3, 2048, Mode.RGB⟩).width : ℤ)
      ≠ round ((3 * 1024 : ℚ) / 2048) := by
  have h1 : (resizeImage 1024 ⟨3, 2048, Mode.RGB⟩).width = 1 := by decide
  have h2 : round ((3 * 1024 : ℚ) / 2048) = (2 : ℤ) := by norm_num [round_eq]
  refine ⟨h1, h2, ?_⟩
  rw [h1, h2]
  decide

/-- Claim C2 (amended): for an image taller than `max_height` the resized
height is exactly `max_height` and the resized width is
`⌊width * max_height / height⌋` (truncation toward zero, not rounding);
width and height are never altered independently, and the aspect ratio is
preserved up to that truncation:
`new_width * height ≤ width * max_height < (new_width + 1) * height`. -/
theorem resizeImage_floor_width_max_height (max_height : Nat) (img : Img)
    (h : img.height > max_height) :
    (resizeImage max_height img).height = max_height
    ∧ (resizeImage max_height img).width = img.width * max_height / img.height
    ∧ (resizeImage max_height img).width * img.height ≤ img.width * max_height
    ∧ img.width * max_height < ((resizeImage max_height img).width + 1) * img.height := by
  have hr : resizeImage max_height img
      = { img with width := img.width * max_height / img.height, height := max_height } := by
    unfold resizeImage
    rw [if_pos h]
  rw [hr]
  refine ⟨rfl, rfl, Nat.div_mul_le_self _ _, ?_⟩
  have hpos : 0 < img.height := Nat.lt_of_le_of_lt (Nat.zero_le _) h
  have hmod : img.width * max_height % img.height < img.height := Nat.mod_lt _ hpos
  have hdm : img.height * (img.width * max_height / img.height)
      + img.width * max_height % img.height = img.width * max_height :=
    Nat.div_add_mod _ _
  calc img.width * max_height
      = img.height * (img.width * max_height / img.height)
        + img.width * max_height % img.height := hdm.symm
    _ < img.height * (img.width * max_height / img.height) + img.height :=
        Nat.add_lt_add_left hmod _
    _ = img.height * (img.width * max_height / img.height + 1) := (Nat.mul_succ _ _).symm
    _ = (img.width * max_height / img.height + 1) * img.height := Nat.mul_comm _ _

/-- Witness for the amended C2 theorem at a 1000x2000 image. -/
theorem resizeImage_floor_width_max_height_witness :
    (resizeImage 1024 ⟨1000, 2000, Mode.RGB⟩).height = 1024
    ∧ (resizeImage 1024 ⟨1000, 2000, Mode.RGB⟩).width = 1000 * 1024 / 2000
    ∧ (resizeImage 1024 ⟨1000, 2000, Mode.RGB⟩).width * 2000 ≤ 1000 * 1024
    ∧ 1000 * 1024 < ((resizeImage 1024 ⟨1000, 2000, Mode.RGB⟩).width + 1) * 2000 :=
  resizeImage_floor_width_max_height 1024 ⟨1000, 2000, Mode.RGB⟩ (by decide)

/-- Claim C3, counterexample: one malformed archive aborts the whole batch.
With a directory holding `a.cbz` (malformed) and `b.cbz` (fine), the batch
produces no output at all — the sibling `b.cbz` is not converted — while
the same sibling alone converts to `/out/./b.epub`. -/
theorem process_folder_aborts_batch :
    process_folder "/in" "/out" 80 1024
        [⟨"/in", [⟨"a.cbz", Except.error "bad zip", Except.ok ()⟩,
            ⟨"b.cbz", Except.ok [], Except.ok ()⟩]⟩]
      = ([], some "bad zip")
    ∧ process_folder "/in" "/out" 80 1024
        [⟨"/in", [⟨"b.cbz", Except.ok [], Except.ok ()⟩]⟩]
      = (["/out/./b.epub"], none) := by
  refine ⟨by decide, by decide⟩

/-- Claim C3 (amended): a malformed archive is fatal to the whole batch,
not just to itself: the uncaught error stops the per-directory archive loop
(everything after the failing archive is never processed) and likewise
stops the walk over the remaining directories. -/
theorem process_folder_stops_at_first_failure :
    (∀ (quality max_height : Nat) (output_folder relative_path root : String)
        (pre post : List FsFile) (bad : FsFile),
        (runCbzList quality max_height output_folder relative_path root [bad]).2.isSome
          = true →
        runCbzList quality max_height output_folder relative_path root (pre ++ bad :: post)
          = runCbzList quality max_height output_folder relative_path root (pre ++ [bad]))
    ∧ (∀ (input_folder output_folder : String) (quality max_height : Nat)
        (dpre dpost : List InputDir) (dbad : InputDir),
        (runDirs input_folder output_folder quality max_height [dbad]).2.isSome = true →
        runDirs input_folder output_folder quality max_height (dpre ++ dbad :: dpost)
          = runDirs input_folder output_folder quality max_height (dpre ++ [dbad])) := by
  constructor
  · intro q mh out rel root pre post bad h
    have herr : ∃ e, process_cbz q mh out rel
        { path := pathJoin root bad.name, extracted := bad.extracted,
          writeRes := bad.writeRes } = Except.error e := by
      cases hpc : process_cbz q mh out rel
          { path := pathJoin root bad.name, extracted := bad.extracted,
            writeRes := bad.writeRes } with
      | error e => exact ⟨e, rfl⟩
      | ok p => simp [runCbzList, hpc] at h
    rcases herr with ⟨e, he⟩
    induction pre with
    | nil => simp [runCbzList, he]
    | cons f fs ih =>
      simp only [List.cons_append]
      cases hf : process_cbz q mh out rel
          { path := pathJoin root f.name, extracted := f.extracted,
            writeRes := f.writeRes } with
      | error e2 => simp [runCbzList, hf]
      | ok p => simp [runCbzList, hf, ih]
  · intro input out q mh dpre dpost dbad h
    cases hr : (runCbzList q mh out (pyRelPath dbad.root input) dbad.root
        (dbad.files.filter (fun f => isCbzName f.name))).2 with
    | none =>
      exfalso
      simp [runDirs, hr] at h
    | some e =>
      induction dpre with
      | nil => simp [runDirs, hr]
      | cons d ds ih =>
        cases hd : (runCbzList q mh out (pyRelPath d.root input) d.root
            (d.files.filter (fun f => isCbzName f.name))).2 with
        | some e2 => simp [runDirs, hd]
        | none => simp [runDirs, hd, ih]

/-- Witness for the amended C3 theorem: the malformed `a.cbz` makes the
loop ignore the sibling `b.cbz` placed after it. -/
theorem process_folder_stops_at_first_failure_witness :
    runCbzList 80 1024 "/out" "." "/in"
        ([] ++ (⟨"a.cbz", Except.error "bad zip", Except.ok ()⟩ : FsFile)
          :: [⟨"b.cbz", Except.ok [], Except.ok ()⟩])
      = runCbzList 80 1024 "/out" "." "/in"
        ([] ++ [⟨"a.cbz", Except.error "bad zip", Except.ok ()⟩]) :=
  process_folder_stops_at_first_failure.1 80 1024 "/out" "." "/in" []
    [⟨"b.cbz", Except.ok [], Except.ok ()⟩]
    ⟨"a.cbz", Except.error "bad zip", Except.ok ()⟩ (by decide)

/-- Claim C4: the table of contents is exactly the spine without its first
chapter (`book.toc = tuple(book.spine[1:])`), for every walk; for a 3-image
archive the spine has 3 entries and the table of contents 2. -/
theorem create_epub_toc_eq_spine_drop_one :
    (∀ walk, (create_epub walk).toc = ((create_epub walk).spine).drop 1)
    ∧ ((create_epub [⟨"t", [("a.jpg", ⟨1, 1, Mode.RGB⟩), ("b.jpg", ⟨1, 1, Mode.RGB⟩),
        ("c.jpg", ⟨1, 1, Mode.RGB⟩)]⟩]).spine).length = 3
    ∧ ((create_epub [⟨"t", [("a.jpg", ⟨1, 1, Mode.RGB⟩), ("b.jpg", ⟨1, 1, Mode.RGB⟩),
        ("c.jpg", ⟨1, 1, Mode.RGB⟩)]⟩]).toc).length = 2 :=
  ⟨fun _ => rfl, by decide, by decide⟩

/-- Claim C5: an image whose height is within `max_height` is re-encoded
but never resized — whenever the per-image pipeline succeeds, the output
pixel dimensions equal the input pixel dimensions. -/
theorem compressImage_no_resize_below_threshold
    (quality max_height : Nat) (img out : Img)
    (hle : img.height ≤ max_height)
    (hok : compressImage quality max_height img = Except.ok out) :
    out.width = img.width ∧ out.height = img.height := by
  have hcp : (convertPalette img).height = img.height
      ∧ (convertPalette img).width = img.width := by
    unfold convertPalette
    split <;> exact ⟨rfl, rfl⟩
  have hnr : resizeImage max_height (convertPalette img) = convertPalette img := by
    unfold resizeImage
    rw [if_neg]
    rw [hcp.1]
    omega
  unfold compressImage at hok
  rw [hnr] at hok
  unfold saveAsJpeg at hok
  by_cases he : jpegEncodable (convertPalette img).mode = true
  · rw [if_pos he] at hok
    injection hok with h'
    rw [← h']
    exact ⟨hcp.2, hcp.1⟩
  · rw [if_neg he] at hok
    cases hok

/-- Witness for C5 at a 100x200 palette image (re-encoded to RGB, same
dimensions). -/
theorem compressImage_no_resize_below_threshold_witness :
    (200 ≤ 1024
      ∧ compressImage 80 1024 ⟨100, 200, Mode.P⟩ = Except.ok ⟨100, 200, Mode.RGB⟩)
    ∧ ((⟨100, 200, Mode.RGB⟩ : Img).width = (⟨100, 200, Mode.P⟩ : Img).width
      ∧ (⟨100, 200, Mode.RGB⟩ : Img).height = (⟨100, 200, Mode.P⟩ : Img).height) :=
  ⟨⟨by decide, rfl⟩,
    compressImage_no_resize_below_threshold 80 1024 ⟨100, 200, Mode.P⟩
      ⟨100, 200, Mode.RGB⟩ (by decide) rfl⟩

/-- Claim C6: a palette-mode (`'P'`) image is converted to RGB before any
resizing or re-encoding: the pipeline on a palette image equals the
pipeline on the same image in RGB mode, it succeeds, and the written image
is in RGB mode — never palette mode. -/
theorem compressImage_palette_to_rgb (quality max_height : Nat) (img : Img)
    (hp : img.mode = Mode.P) :
    compressImage quality max_height img
      = saveAsJpeg quality (resizeImage max_height { img with mode := Mode.RGB })
    ∧ ∃ out, compressImage quality max_height img = Except.ok out
        ∧ out.mode = Mode.RGB := by
  have hcp : convertPalette img = { img with mode := Mode.RGB } := by
    unfold convertPalette
    rw [if_pos hp]
  have hm : (resizeImage max_height { img with mode := Mode.RGB }).mode = Mode.RGB := by
    unfold resizeImage
    split <;> rfl
  constructor
  · unfold compressImage
    rw [hcp]
  · refine ⟨resizeImage max_height { img with mode := Mode.RGB }, ?_, hm⟩
    unfold compressImage
    rw [hcp]
    unfold saveAsJpeg
    rw [if_pos (by rw [hm]; rfl)]

/-- Witness for C6 at a 100x3000 palette image. -/
theorem compressImage_palette_to_rgb_witness :
    compressImage 80 1024 ⟨100, 3000, Mode.P⟩
      = saveAsJpeg 80 (resizeImage 1024 ⟨100, 3000, Mode.RGB⟩)
    ∧ ∃ out, compressImage 80 1024 ⟨100, 3000, Mode.P⟩ = Except.ok out
        ∧ out.mode = Mode.RGB :=
  compressImage_palette_to_rgb 80 1024 ⟨100, 3000, Mode.P⟩ rfl

/-- Claim C7: the destination path mirrors the archive's location: for
input root `/in`, output root `/out` and archive `/in/seriesA/vol1.cbz` the
computed destination is exactly `/out/seriesA/vol1.epub`; and in general,
an archive `input/sub/stem.cbz` maps to `output/sub/stem.epub` (for roots
not ending in a separator, a plain relative subdirectory, and a stem
containing no separator and at least one non-dot character). -/
theorem process_cbz_output_path_mirrors :
    epubOutputPath "/in/seriesA/vol1.cbz" "/out" (pyRelPath "/in/seriesA" "/in")
      = "/out/seriesA/vol1.epub"
    ∧ ∀ input_folder output_folder sub stem : String,
        output_folder.data ≠ [] →
        output_folder.data.getLast? ≠ some '/' →
        sub.data ≠ [] →
        sub.data.head? ≠ some '/' →
        sub.data.getLast? ≠ some '/' →
        ('/') ∉ stem.data →
        (∃ c ∈ stem.data, c ≠ '.') →
        epubOutputPath (input_folder ++ "/" ++ sub ++ "/" ++ stem ++ ".cbz")
            output_folder (pyRelPath (input_folder ++ "/" ++ sub) input_folder)
          = output_folder ++ "/" ++ sub ++ "/" ++ stem ++ ".epub" := by
  refine ⟨by decide, ?_⟩
  intro input_folder output_folder sub stem h1 h2 h3 h4 h5 h6 h7
  exact epubOutputPath_mirrors input_folder output_folder sub stem h1 h2 h3 h4 h5 h6 h7

/-- Witness for the general part of C7, instantiated at
`/in`, `/out`, `seriesA`, `vol1`. -/
theorem process_cbz_output_path_mirrors_witness :
    epubOutputPath ("/in" ++ "/" ++ "seriesA" ++ "/" ++ "vol1" ++ ".cbz") "/out"
        (pyRelPath ("/in" ++ "/" ++ "seriesA") "/in")
      = "/out" ++ "/" ++ "seriesA" ++ "/" ++ "vol1" ++ ".epub" :=
  process_cbz_output_path_mirrors.2 "/in" "/out" "seriesA" "vol1" (by decide) (by decide)
    (by decide) (by decide) (by decide) (by decide) ⟨'v', by decide, by decide⟩

/-- Claim C8, counterexample: the item identifier is the bare basename, so
an archive with `page.jpg` in two different subdirectories produces two
content items with the same uid `page.jpg` — identifiers are not unique. -/
theorem create_epub_duplicate_uid :
    (create_epub [⟨"d1", [("page.jpg", ⟨1, 1, Mode.RGB⟩)]⟩,
        ⟨"d2", [("page.jpg", ⟨1, 1, Mode.RGB⟩)]⟩]).itemUids = ["page.jpg", "page.jpg"]
    ∧ ¬ ((create_epub [⟨"d1", [("page.jpg", ⟨1, 1, Mode.RGB⟩)]⟩,
        ⟨"d2", [("page.jpg", ⟨1, 1, Mode.RGB⟩)]⟩]).itemUids).Nodup := by
  refine ⟨by decide, by decide⟩

/-- Claim C8 (amended): content-item identifiers are unique exactly when
the qualifying images of the extracted tree have pairwise distinct
basenames; under that hypothesis every item uid of the assembled book is
distinct. -/
theorem create_epub_uids_nodup_of_distinct_names (walk : List DirEntry)
    (h : (allValidNames walk).Nodup) : ((create_epub walk).itemUids).Nodup :=
  ((epubPages_perm walk).nodup_iff).mpr h

/-- Witness for the amended C8 theorem on a two-image archive with distinct
names. -/
theorem create_epub_uids_nodup_of_distinct_names_witness :
    (allValidNames [⟨"t", [("a.jpg", ⟨1, 1, Mode.RGB⟩),
        ("b.jpg", ⟨1, 1, Mode.RGB⟩)]⟩]).Nodup
    ∧ ((create_epub [⟨"t", [("a.jpg", ⟨1, 1, Mode.RGB⟩),
        ("b.jpg", ⟨1, 1, Mode.RGB⟩)]⟩]).itemUids).Nodup :=
  ⟨by decide, create_epub_uids_nodup_of_distinct_names _ (by decide)⟩

/-- Claim C9: the scratch extraction directory acquired by
`tempfile.TemporaryDirectory()` is released on every exit path of
`process_cbz` — extraction failure, image failure, write failure or normal
completion (every `cbz : CbzFile` covers all those outcomes) — so the
number of live scratch directories after the call equals the number before
it. -/
theorem process_cbz_scratch_cleanup
    (quality max_height : Nat) (output_folder relative_path : String)
    (cbz : CbzFile) (fs : FS) :
    ((process_cbz_fs quality max_height output_folder relative_path cbz fs).2).scratch
      = fs.scratch := by
  simp [process_cbz_fs, withTempDir]

/-- Witness for C9 on a concrete malformed archive and an empty filesystem. -/
theorem process_cbz_scratch_cleanup_witness :
    ((process_cbz_fs 80 1024 "/out" "."
        ⟨"/in/x.cbz", Except.error "bad zip", Except.ok ()⟩ ⟨0⟩).2).scratch
      = (⟨0⟩ : FS).scratch :=
  process_cbz_scratch_cleanup 80 1024 "/out" "."
    ⟨"/in/x.cbz", Except.error "bad zip", Except.ok ()⟩ ⟨0⟩

/-- Claim C10: only palette mode (`'P'`) is converted before re-encoding —
any other mode reaches the JPEG encoder unchanged — and a non-encodable
mode such as RGBA makes `Image.save` raise, which fails the whole archive
conversion. -/
theorem compressImage_rgba_fails :
    (∀ img : Img, img.mode ≠ Mode.P → convertPalette img = img)
    ∧ compressImage 80 1024 ⟨800, 600, Mode.RGBA⟩
      = Except.error "cannot write mode as JPEG"
    ∧ process_cbz 80 1024 "/out" "."
        ⟨"/in/x.cbz", Except.ok [⟨"t", [("p.png", ⟨800, 600, Mode.RGBA⟩)]⟩],
          Except.ok ()⟩
      = Except.error "cannot write mode as JPEG" := by
  refine ⟨?_, rfl, rfl⟩
  intro img h
  unfold convertPalette
  rw [if_neg h]

/-- Witness for the first part of C10: an RGBA image passes through the
palette conversion unchanged. -/
theorem compressImage_rgba_fails_witness :
    convertPalette ⟨800, 600, Mode.RGBA⟩ = ⟨800, 600, Mode.RGBA⟩ :=
  compressImage_rgba_fails.1 ⟨800, 600, Mode.RGBA⟩ (by decide)
